import Mathlib

/-!
Verification of the Hardhat plugin-glue snippet: the `unionType` /
`conditionalUnionType` schema-validation combinators, the mocha test-runner
configuration hook, the keystore `fetchValue` configuration-variable hook,
and the Solidity compiler-config resolution helper `resolveCompiler`.

Values, issues and schemas follow the data model of the validation library
(zod): a schema validates an arbitrary runtime value and either succeeds
with a value or fails with a non-empty ordered list of issues, each issue
carrying a message and a path of string/integer keys.
-/

namespace HardhatSpec

/-- JavaScript-like runtime values, as consumed by the validation schemas.
Functions are opaque to validation, so they are a single marker constructor. -/
inductive Value where
  | vUndefined
  | vNull
  | vBool (b : Bool)
  | vNum (n : Int)
  | vStr (s : String)
  | vArr (elems : List Value)
  | vObj (fields : List (String × Value))
  | vFun

/-- One step of an issue path: an object key or an array index. -/
inductive PathKey where
  | str (s : String)
  | idx (n : Nat)
deriving DecidableEq, Repr

/-- A validation issue: a human-readable message and a structural path. -/
structure Issue where
  message : String
  path : List PathKey
deriving DecidableEq, Repr

/-- Result of `safeParse`: success with the parsed value, or a list of issues. -/
abbrev ParseResult := Except (List Issue) Value

/-- A schema is a validation capability: `parse(value) -> Result<T, IssueList>`. -/
abbrev Schema := Value → ParseResult

/-- First-column lookup in an association list (JS property access `m[k]`). -/
def alGet {α : Type} (m : List (String × α)) (k : String) : Option α :=
  (m.find? (fun p => decide (p.1 = k))).map (fun p => p.2)

/-- JS property assignment `m[k] = v`: replaces the value in place when the key
is present, appends the key otherwise (JS object key-insertion order). -/
def alSet {α : Type} (m : List (String × α)) (k : String) (v : α) : List (String × α) :=
  if m.any (fun p => decide (p.1 = k)) then
    m.map (fun p => if p.1 = k then (k, v) else p)
  else
    m ++ [(k, v)]

/-- Modelled from the spec: helper of the unconditional union combinator.
The repository's `hardhat-zod-utils/src/index.ts` is not part of the given
sources (only its tests are), so the combinator is modelled from the spec:
try every candidate in order and return the first success, if any. -/
def firstOk (candidates : List Schema) (input : Value) : Option Value :=
  match candidates with
  | [] => none
  | s :: rest =>
    match s input with
    | .ok d => some d
    | .error _ => firstOk rest input

/-- Modelled from the spec: `unionType(candidates, fallbackMessage)` from the
missing `hardhat-zod-utils/src/index.ts`. First-in-order success wins; if all
candidates fail, the result is a single issue carrying `fallbackMessage` at
the top-level path `[]`, all per-candidate issues discarded. -/
def unionType (candidates : List Schema) (fallbackMessage : String) : Schema :=
  fun input =>
    match firstOk candidates input with
    | some d => .ok d
    | none => .error [⟨fallbackMessage, []⟩]

/-- Modelled from the spec: `conditionalUnionType(cases, fallbackMessage)` from
the missing `hardhat-zod-utils/src/index.ts`. The first case whose predicate
returns true receives the input and its schema's result is returned verbatim;
if no predicate matches, a single issue with `fallbackMessage` at path `[]`. -/
def conditionalUnionType (cases : List ((Value → Bool) × Schema))
    (fallbackMessage : String) : Schema :=
  fun input =>
    match cases.find? (fun c => c.1 input) with
    | some c => c.2 input
    | none => .error [⟨fallbackMessage, []⟩]

/-- The name zod reports for a received value's type in mismatch messages. -/
def typeName : Value → String
  | .vUndefined => "undefined"
  | .vNull => "null"
  | .vBool _ => "boolean"
  | .vNum _ => "number"
  | .vStr _ => "string"
  | .vArr _ => "array"
  | .vObj _ => "object"
  | .vFun => "function"

/-- Modelled from the spec: `z.string()` of the external validation library. -/
def stringS : Schema := fun v =>
  match v with
  | .vStr s => .ok (.vStr s)
  | _ => .error [⟨"Expected string, received " ++ typeName v, []⟩]

/-- Modelled from the spec: `z.number()` of the external validation library. -/
def numberS : Schema := fun v =>
  match v with
  | .vNum n => .ok (.vNum n)
  | _ => .error [⟨"Expected number, received " ++ typeName v, []⟩]

/-- Modelled from the spec: `z.boolean()` of the external validation library. -/
def booleanS : Schema := fun v =>
  match v with
  | .vBool b => .ok (.vBool b)
  | _ => .error [⟨"Expected boolean, received " ++ typeName v, []⟩]

/-- Modelled from the spec: `z.any()` of the external validation library. -/
def anyS : Schema := fun v => .ok v

/-- Modelled from the spec: `z.function()` of the external validation library. -/
def functionS : Schema := fun v =>
  match v with
  | .vFun => .ok .vFun
  | _ => .error [⟨"Expected function, received " ++ typeName v, []⟩]

/-- Modelled from the spec: `z.literal(s)` for the string literals used by the
mocha config schema: accepts exactly the string `s`. -/
def literalS (s : String) : Schema := fun v =>
  match v with
  | .vStr t => if t = s then .ok (.vStr t) else .error [⟨"Invalid literal value", []⟩]
  | _ => .error [⟨"Invalid literal value", []⟩]

/-- Predicate `startsWithSeq hay pat`: `pat` is an initial segment of `hay`. -/
def startsWithSeq : List Char → List Char → Bool
  | _, [] => true
  | [], _ :: _ => false
  | a :: as, b :: bs => a = b && startsWithSeq as bs

/-- Predicate `containsSeq hay pat`: `pat` occurs contiguously inside `hay`. -/
def containsSeq : List Char → List Char → Bool
  | [], pat => pat.isEmpty
  | c :: rest, pat => startsWithSeq (c :: rest) pat || containsSeq rest pat

/-- Modelled from the spec: `z.string().url()` — a string that looks like a URL
(has a scheme separator). A plain word such as "asd" fails with "Invalid url". -/
def urlS : Schema := fun v =>
  match v with
  | .vStr s =>
    if containsSeq s.data ("://".data) then .ok (.vStr s)
    else .error [⟨"Invalid url", []⟩]
  | _ => .error [⟨"Expected string, received " ++ typeName v, []⟩]

/-- Modelled from the spec: `.optional()` — additionally accepts `undefined`. -/
def optionalS (s : Schema) : Schema := fun v =>
  match v with
  | .vUndefined => .ok .vUndefined
  | _ => s v

/-- Issues of validating each element of `xs` (from index `i`) against `elem`,
index-prefixing the element issues' paths. -/
def arrayIssues (elem : Schema) : List Value → Nat → List Issue
  | [], _ => []
  | x :: xs, i =>
    (match elem x with
     | .ok _ => []
     | .error iss => iss.map (fun it => ⟨it.message, .idx i :: it.path⟩))
    ++ arrayIssues elem xs (i + 1)

/-- Modelled from the spec: `z.array(elem)` — every element must validate, and
a failing element's issues are reported at the element's index. -/
def arrayS (elem : Schema) : Schema := fun v =>
  match v with
  | .vArr xs =>
    match arrayIssues elem xs 0 with
    | [] => .ok (.vArr xs)
    | iss => .error iss
  | _ => .error [⟨"Expected array, received " ++ typeName v, []⟩]

/-- Issues of validating the declared `fields` against the object `entries`,
key-prefixing each field's issues. A missing field reports "Required". -/
def objIssues (fields : List (String × Schema))
    (entries : List (String × Value)) : List Issue :=
  match fields with
  | [] => []
  | (name, s) :: rest =>
    (match alGet entries name with
     | none => [⟨"Required", [.str name]⟩]
     | some fv =>
       match s fv with
       | .ok _ => []
       | .error iss => iss.map (fun it => ⟨it.message, .str name :: it.path⟩))
    ++ objIssues rest entries

/-- Modelled from the spec: `z.object(fields)` — the input must be an object
and every declared field must validate, issue paths prefixed with the key. -/
def objectS (fields : List (String × Schema)) : Schema := fun v =>
  match v with
  | .vObj entries =>
    match objIssues fields entries with
    | [] => .ok (.vObj entries)
    | iss => .error iss
  | _ => .error [⟨"Expected object, received " ++ typeName v, []⟩]

/-- JS `typeof v === "string"`. -/
def isStringJS (v : Value) : Bool :=
  match v with
  | .vStr _ => true
  | _ => false

/-- JS `typeof v === "object"` (true for objects, arrays and `null`). -/
def isObjectJS (v : Value) : Bool :=
  match v with
  | .vObj _ => true
  | .vArr _ => true
  | .vNull => true
  | _ => false

/-- JS `v !== null`. -/
def isNotNullJS (v : Value) : Bool :=
  match v with
  | .vNull => false
  | _ => true

/-- JS `k in v` for the object case (property presence). -/
def hasKeyJS (v : Value) (k : String) : Bool :=
  match v with
  | .vObj entries => entries.any (fun p => decide (p.1 = k))
  | _ => false

/-- The inner conditional union of the nested-path test
(`hardhat-zod-utils/test/index.ts`, "Should have the path to the nested error,
even if it's also a conditional union type"). -/
def nestedInner : Schema :=
  conditionalUnionType
    [ (fun v => isObjectJS v && isNotNullJS v && hasKeyJS v "foo",
        objectS [("foo", urlS)]),
      (fun v => isObjectJS v && isNotNullJS v && hasKeyJS v "bar",
        objectS [("bar", arrayS numberS)]) ]
    "No internal match"

/-- The outer conditional union of the nested-path test: a string, or an
object delegated to the nested conditional union `nestedInner`. -/
def nestedOuter : Schema :=
  conditionalUnionType
    [ (fun v => isStringJS v, stringS),
      (fun v => isObjectJS v, nestedInner) ]
    "No outer match"

/-- The fields of `mochaConfigType` from
`hardhat-mocha-test-runner/src/hookHandlers/config.ts`, in source order. -/
def mochaConfigFields : List (String × Schema) :=
  [ ("allowUncaught", optionalS booleanS),
    ("asyncOnly", optionalS booleanS),
    ("bail", optionalS booleanS),
    ("checkLeaks", optionalS booleanS),
    ("color", optionalS booleanS),
    ("delay", optionalS booleanS),
    ("diff", optionalS booleanS),
    ("dryRun", optionalS booleanS),
    ("failZero", optionalS booleanS),
    ("fgrep", optionalS stringS),
    ("forbidOnly", optionalS booleanS),
    ("forbidPending", optionalS booleanS),
    ("fullTrace", optionalS booleanS),
    ("globals", optionalS (arrayS stringS)),
    ("grep", optionalS stringS),
    ("growl", optionalS booleanS),
    ("inlineDiffs", optionalS booleanS),
    ("invert", optionalS booleanS),
    ("noHighlighting", optionalS booleanS),
    ("reporter", optionalS stringS),
    ("reporterOptions", optionalS anyS),
    ("retries", optionalS numberS),
    ("slow", optionalS numberS),
    ("timeout", optionalS (unionType [numberS, stringS] "Expected a number or a string")),
    ("ui", optionalS (unionType
      [literalS "bdd", literalS "tdd", literalS "qunit", literalS "exports"]
      "Expected \"bdd\", \"tdd\", \"qunit\" or \"exports\"")),
    ("parallel", optionalS booleanS),
    ("jobs", optionalS numberS),
    ("rootHooks", optionalS (objectS
      [ ("afterAll", optionalS (unionType [functionS, arrayS functionS]
          "Expected a function or an array of functions")),
        ("beforeAll", optionalS (unionType [functionS, arrayS functionS]
          "Expected a function or an array of functions")),
        ("afterEach", optionalS (unionType [functionS, arrayS functionS]
          "Expected a function or an array of functions")),
        ("beforeEach", optionalS (unionType [functionS, arrayS functionS]
          "Expected a function or an array of functions")) ])),
    ("require", optionalS (arrayS stringS)),
    ("isWorker", optionalS booleanS) ]

/-- Schema `mochaConfigType` from the mocha-runner config hook handlers. -/
def mochaConfigType : Schema := objectS mochaConfigFields

/-- The results of a sequence of independent `parse` calls on one schema. -/
def runCalls (s : Schema) (inputs : List Value) : List ParseResult :=
  inputs.map s

/-- Value override of one property during a spread: `b`'s value for the key
wins when present. -/
def overrideWith (b : List (String × Value)) (p : String × Value) :
    String × Value :=
  match alGet b p.1 with
  | some w => (p.1, w)
  | none => p

/-- JS object spread `{...a, ...b}`: keys of `a` in order with values of `b`
overriding where the key is shared, then the keys of `b` not present in `a`. -/
def jsSpread (a b : List (String × Value)) : List (String × Value) :=
  a.map (overrideWith b)
    ++ b.filter (fun q => !(a.any (fun p => decide (p.1 = q.1))))

/-- Accessor for `cfg.mocha` read as an object; spreading an absent or non-object value
contributes no properties. -/
def getObjField (m : List (String × Value)) (k : String) : List (String × Value) :=
  match alGet m k with
  | some (.vObj entries) => entries
  | _ => []

/-- The baseline mocha config of the resolve hook: `{ timeout: 40000 }`. -/
def mochaDefaults : List (String × Value) := [("timeout", .vNum 40000)]

/-- Handler `resolveUserConfig` from
`hardhat-mocha-test-runner/src/hookHandlers/config.ts` (lines 81–99), with the
result of `next(userConfig, resolveConfigurationVariable)` passed explicitly:
`{...resolvedConfig, mocha: {timeout: 40000, ...resolvedConfig.mocha,
...userConfig.mocha}}`. -/
def resolveUserConfig (userConfig nextResolved : List (String × Value)) :
    List (String × Value) :=
  alSet nextResolved "mocha"
    (.vObj (jsSpread (jsSpread mochaDefaults (getObjField nextResolved "mocha"))
      (getObjField userConfig "mocha")))

/-- The environment the keystore `fetchValue` hook observes: whether we run in
CI, whether the keystore file is initialized, and the stored key/value pairs.
File access and the loader object are abstracted into these fields. -/
structure KeystoreEnv where
  ci : Bool
  keystoreInitialized : Bool
  keys : List (String × String)

/-- Outcome of the `fetchValue` hook: delegate to `next(context, variable)`, or
return `keystore.readValue(variable.name)`. -/
inductive FetchOutcome where
  | next
  | value (v : String)
deriving DecidableEq, Repr

/-- The `fetchValue` handler of the keystore configuration-variable hook
(`src/unnamed/part_000`, lines 18–51). `loaderCached` models the handler's
`keystoreLoader` cache variable being already populated; the returned flag is
its state after the call (the loader is constructed only on the non-CI path). -/
def fetchValue (env : KeystoreEnv) (loaderCached : Bool) (name : String) :
    FetchOutcome × Bool :=
  if env.ci then
    (.next, loaderCached)
  else
    if !env.keystoreInitialized then
      (.next, true)
    else
      match alGet env.keys name with
      | none => (.next, true)
      | some v => (.value v, true)

/-- User-supplied optimizer settings: any subset of the fields may be given. -/
structure OptimizerUserConfig where
  enabled : Option Bool := none
  runs : Option Nat := none
deriving DecidableEq, Repr

/-- Resolved optimizer settings after applying the defaults. -/
structure OptimizerConfig where
  enabled : Bool
  runs : Nat
deriving DecidableEq, Repr

/-- Type of `outputSelection`: file pattern → contract pattern → requested outputs. -/
abbrev OutputSelection := List (String × List (String × List String))

/-- The user-facing `settings` object, restricted to the fields
`resolveCompiler` reads or writes. -/
structure SolcUserSettings where
  evmVersion : Option String := none
  optimizer : Option OptimizerUserConfig := none
  outputSelection : Option OutputSelection := none
deriving DecidableEq, Repr

/-- Structure `SolcUserConfig` from `src/unnamed/part_001`: a version and optional settings. -/
structure SolcUserConfig where
  version : String
  settings : Option SolcUserSettings := none
deriving DecidableEq, Repr

/-- Resolved compiler settings: optimizer and outputSelection always present. -/
structure SolcSettings where
  evmVersion : Option String
  optimizer : OptimizerConfig
  outputSelection : OutputSelection
deriving DecidableEq, Repr

/-- Resolved `SolcConfig`: a version plus resolved settings. -/
structure SolcConfig where
  version : String
  settings : SolcSettings
deriving DecidableEq, Repr

/-- Digits of a version component read as a number (non-digits ignored). -/
def parseNatChars (cs : List Char) : Nat :=
  cs.foldl (fun n c => if c.isDigit then n * 10 + (c.toNat - 48) else n) 0

/-- Split a character list on the '.' separator. -/
def splitOnDot : List Char → List (List Char)
  | [] => [[]]
  | c :: rest =>
    if c = '.' then [] :: splitOnDot rest
    else
      match splitOnDot rest with
      | [] => [[c]]
      | h :: t => (c :: h) :: t

/-- The MAJOR.MINOR.PATCH numbers of a dotted version string. -/
def versionTriple (s : String) : Nat × Nat × Nat :=
  match splitOnDot s.data with
  | a :: b :: c :: _ => (parseNatChars a, parseNatChars b, parseNatChars c)
  | [a, b] => (parseNatChars a, parseNatChars b, 0)
  | [a] => (parseNatChars a, 0, 0)
  | [] => (0, 0, 0)

/-- Modelled from the spec: `semver.gte` of the external `semver` package, for
the plain MAJOR.MINOR.PATCH version strings used here. -/
def semverGte (v w : String) : Bool :=
  let pv := versionTriple v
  let pw := versionTriple w
  decide (pw.1 < pv.1) ||
    (decide (pv.1 = pw.1) &&
      (decide (pw.2.1 < pv.2.1) ||
        (decide (pv.2.1 = pw.2.1) && decide (pw.2.2 ≤ pv.2.2))))

/-- Constant `defaultSolcOutputSelection` from `src/unnamed/part_001` (lines 35-46). -/
def defaultSolcOutputSelection : OutputSelection :=
  [("*", [("*", ["abi", "evm.bytecode", "evm.deployedBytecode",
                 "evm.methodIdentifiers", "metadata"]),
          ("", ["ast"])])]

/-- Append to `cur` the members of `outputs` it does not already contain
(the inner `for (const output of outputs)` push loop of `resolveCompiler`). -/
def addOutputs (cur : List String) (outputs : List String) : List String :=
  outputs.foldl (fun acc o => if o ∈ acc then acc else acc ++ [o]) cur

/-- The `outputSelection` defaulting loop of `resolveCompiler`: for every
file/contract selection of `defaultSolcOutputSelection`, ensure the entry
exists and push each default output that is not already present. -/
def applyDefaultOutputs (sel : OutputSelection) : OutputSelection :=
  defaultSolcOutputSelection.foldl (fun acc fileEntry =>
    let fileMap := (alGet acc fileEntry.1).getD []
    let fileMap2 := fileEntry.2.foldl (fun fm contractEntry =>
      let cur := (alGet fm contractEntry.1).getD []
      alSet fm contractEntry.1 (addOutputs cur contractEntry.2)) fileMap
    alSet acc fileEntry.1 fileMap2) sel

/-- Function `resolveCompiler` from `src/unnamed/part_001` (lines 132-176): settings
default to `{}`; `evmVersion` defaults to "paris" for solc >= 0.8.20; the
optimizer is `{enabled: false, runs: 200}` overridden by the user's fields;
and the default output selections are merged in without duplicates. -/
def resolveCompiler (compiler : SolcUserConfig) : SolcConfig :=
  let s := compiler.settings.getD {}
  { version := compiler.version,
    settings :=
      { evmVersion :=
          if semverGte compiler.version "0.8.20" then some (s.evmVersion.getD "paris")
          else s.evmVersion,
        optimizer :=
          { enabled := (s.optimizer.getD {}).enabled.getD false,
            runs := (s.optimizer.getD {}).runs.getD 200 },
        outputSelection := applyDefaultOutputs (s.outputSelection.getD []) } }

/-! ## Shared lemmas -/

theorem find?_append_of_none {α : Type} {f : α → Bool} (l1 l2 : List α)
    (h : ∀ c ∈ l1, f c = false) :
    List.find? f (l1 ++ l2) = List.find? f l2 := by
  rw [List.find?_append, List.find?_eq_none.mpr (fun x hx => by simp [h x hx])]
  rfl

theorem firstOk_append_of_fail (pre rest : List Schema) (input : Value)
    (h : ∀ s ∈ pre, ∃ e, s input = .error e) :
    firstOk (pre ++ rest) input = firstOk rest input := by
  induction pre with
  | nil => rfl
  | cons s ss ih =>
    obtain ⟨e, he⟩ := h s (List.mem_cons_self s ss)
    rw [List.cons_append]
    simp only [firstOk, he]
    exact ih (fun t ht => h t (List.mem_cons_of_mem s ht))

/-! ## Claims about the union combinators -/

/-- C1: for the conditional union combinator, if candidate `i` is the first
whose predicate returns true on the input, `parse` returns exactly the result
of that candidate's schema on the input (same success/failure, issues and
paths), and the candidates after `i` are never consulted: the result does not
change under any replacement of the later candidates. -/
theorem conditionalUnionType_first_match
    (pre post : List ((Value → Bool) × Schema)) (p : Value → Bool) (s : Schema)
    (msg : String) (input : Value)
    (hpre : ∀ c ∈ pre, c.1 input = false) (hp : p input = true) :
    conditionalUnionType (pre ++ (p, s) :: post) msg input = s input ∧
    ∀ post', conditionalUnionType (pre ++ (p, s) :: post) msg input =
      conditionalUnionType (pre ++ (p, s) :: post') msg input := by
  have key : ∀ post0 : List ((Value → Bool) × Schema),
      List.find? (fun c => c.1 input) (pre ++ (p, s) :: post0) = some (p, s) := by
    intro post0
    rw [find?_append_of_none pre _ hpre]
    exact List.find?_cons_of_pos _ hp
  refine ⟨?_, fun post' => ?_⟩
  · simp [conditionalUnionType, key post]
  · simp [conditionalUnionType, key post, key post']

/-- Witness for C1, at the spec's scenario: with two string-predicated
candidates, `"asd"` is delegated to the first one (the url schema). -/
theorem conditionalUnionType_first_match_witness :
    conditionalUnionType
      [(fun v => isStringJS v, urlS), (fun v => isStringJS v, stringS)]
      "No match" (.vStr "asd") = urlS (.vStr "asd") ∧
    ∀ post', conditionalUnionType
      [(fun v => isStringJS v, urlS), (fun v => isStringJS v, stringS)]
      "No match" (.vStr "asd") =
      conditionalUnionType ((fun v => isStringJS v, urlS) :: post')
        "No match" (.vStr "asd") :=
  conditionalUnionType_first_match [] [(fun v => isStringJS v, stringS)]
    (fun v => isStringJS v) urlS "No match" (.vStr "asd")
    (fun c hc => absurd hc (List.not_mem_nil c)) rfl

/-- C2: for the unconditional union combinator, if every candidate rejects the
input, `parse` fails with exactly one issue whose message is the fallback
message and whose path is empty; the per-candidate issues are discarded. -/
theorem unionType_all_fail (candidates : List Schema) (msg : String)
    (input : Value) (h : ∀ s ∈ candidates, ∃ e, s input = .error e) :
    unionType candidates msg input = .error [⟨msg, []⟩] := by
  have hnone : firstOk candidates input = none := by
    have h0 := firstOk_append_of_fail candidates [] input h
    rwa [List.append_nil] at h0
  simp [unionType, hnone]

/-- Witness for C2, at the spec's scenario: `unionType([string, number],
"bad")` on `true` fails with message `"bad"` at path `[]`. -/
theorem unionType_all_fail_witness :
    unionType [stringS, numberS] "bad" (.vBool true) = .error [⟨"bad", []⟩] :=
  unionType_all_fail [stringS, numberS] "bad" (.vBool true) (by
    intro s hs
    simp only [List.mem_cons, List.not_mem_nil, or_false] at hs
    rcases hs with rfl | rfl
    · exact ⟨_, rfl⟩
    · exact ⟨_, rfl⟩)

/-- C3: for the unconditional union combinator, if every candidate before `s`
rejects the input and `s` accepts it, `parse` succeeds with `s`'s value:
first-in-order success wins. -/
theorem unionType_first_success (pre : List Schema) (s : Schema)
    (post : List Schema) (msg : String) (input d : Value)
    (hpre : ∀ t ∈ pre, ∃ e, t input = .error e) (hs : s input = .ok d) :
    unionType (pre ++ s :: post) msg input = .ok d := by
  have h1 : firstOk (pre ++ s :: post) input = some d := by
    rw [firstOk_append_of_fail pre (s :: post) input hpre]
    simp [firstOk, hs]
  simp [unionType, h1]

/-- Witness for C3: the number schema rejects `"x"`, the string schema accepts
it, so the union of the two succeeds with the string schema's value. -/
theorem unionType_first_success_witness :
    unionType [numberS, stringS] "Expected a number or a string" (.vStr "x") =
      .ok (.vStr "x") :=
  unionType_first_success [numberS] stringS [] "Expected a number or a string"
    (.vStr "x") (.vStr "x")
    (by
      intro t ht
      simp only [List.mem_cons, List.not_mem_nil, or_false] at ht
      subst ht
      exact ⟨_, rfl⟩)
    rfl

/-- C4: for the conditional union combinator, if no candidate's predicate
returns true on the input, `parse` fails with exactly one issue carrying the
fallback message at the empty path. -/
theorem conditionalUnionType_no_match (cases : List ((Value → Bool) × Schema))
    (msg : String) (input : Value) (h : ∀ c ∈ cases, c.1 input = false) :
    conditionalUnionType cases msg input = .error [⟨msg, []⟩] := by
  have hnone : List.find? (fun c => c.1 input) cases = none :=
    List.find?_eq_none.mpr (fun x hx => by simp [h x hx])
  simp [conditionalUnionType, hnone]

/-- Witness for C4, at the test's scenario: both candidates are predicated on
the input being a string, so `123` fails with `"No match"` at path `[]`. -/
theorem conditionalUnionType_no_match_witness :
    conditionalUnionType
      [(fun v => isStringJS v, stringS), (fun v => isStringJS v, urlS)]
      "No match" (.vNum 123) = .error [⟨"No match", []⟩] :=
  conditionalUnionType_no_match
    [(fun v => isStringJS v, stringS), (fun v => isStringJS v, urlS)]
    "No match" (.vNum 123)
    (by
      intro c hc
      simp only [List.mem_cons, List.not_mem_nil, or_false] at hc
      rcases hc with rfl | rfl <;> rfl)

/-- C6: both combinators are pure and deterministic. A parse call's result is
a function of the combinator's config and the input only: in any sequence of
calls, the result of the last call equals the single-call result, no matter
what prior calls were made (so equal inputs always give equal results,
independent of other calls). -/
theorem union_combinators_deterministic
    (cands : List Schema) (cases : List ((Value → Bool) × Schema))
    (msg1 msg2 : String) :
    (∀ (h1 h2 : List Value) (input : Value),
      (runCalls (unionType cands msg1) (h1 ++ [input])).getLast? =
        some (unionType cands msg1 input) ∧
      (runCalls (unionType cands msg1) (h1 ++ [input])).getLast? =
        (runCalls (unionType cands msg1) (h2 ++ [input])).getLast?) ∧
    (∀ (h1 h2 : List Value) (input : Value),
      (runCalls (conditionalUnionType cases msg2) (h1 ++ [input])).getLast? =
        some (conditionalUnionType cases msg2 input) ∧
      (runCalls (conditionalUnionType cases msg2) (h1 ++ [input])).getLast? =
        (runCalls (conditionalUnionType cases msg2) (h2 ++ [input])).getLast?) := by
  have key : ∀ (s : Schema) (h : List Value) (input : Value),
      (runCalls s (h ++ [input])).getLast? = some (s input) := by
    intro s h input
    rw [runCalls, List.map_append]
    exact List.getLast?_concat _
  exact ⟨fun h1 h2 input => ⟨key _ h1 input, by rw [key _ h1 input, key _ h2 input]⟩,
    fun h1 h2 input => ⟨key _ h1 input, by rw [key _ h1 input, key _ h2 input]⟩⟩

/-- C5: a matched candidate's result — including every nested issue path — is
passed through the conditional union combinator verbatim, and in particular
the nested conditional-union schema of the test reports `["foo"]` for the
failing url field of `{foo: "asd"}` and `["bar", 0]` for the failing element
of `{bar: ["asd"]}`, with no truncation or reset by the combinator layers. -/
theorem conditionalUnionType_nested_paths :
    (∀ (cs : List ((Value → Bool) × Schema)) (msg : String) (input : Value)
      (c : (Value → Bool) × Schema),
      List.find? (fun c => c.1 input) cs = some c →
      conditionalUnionType cs msg input = c.2 input) ∧
    nestedOuter (.vObj [("foo", .vStr "asd")]) =
      .error [⟨"Invalid url", [.str "foo"]⟩] ∧
    nestedOuter (.vObj [("bar", .vArr [.vStr "asd"])]) =
      .error [⟨"Expected number, received string", [.str "bar", .idx 0]⟩] := by
  refine ⟨?_, rfl, rfl⟩
  intro cs msg input c hc
  simp [conditionalUnionType, hc]

/-- Witness for C5: the outer conditional union delegates the object
`{foo: "asd"}` verbatim to the nested conditional union. -/
theorem conditionalUnionType_nested_paths_witness :
    conditionalUnionType
      [(fun v => isStringJS v, stringS), (fun v => isObjectJS v, nestedInner)]
      "No outer match" (.vObj [("foo", .vStr "asd")]) =
      nestedInner (.vObj [("foo", .vStr "asd")]) :=
  conditionalUnionType_nested_paths.1
    [(fun v => isStringJS v, stringS), (fun v => isObjectJS v, nestedInner)]
    "No outer match" (.vObj [("foo", .vStr "asd")])
    (fun v => isObjectJS v, nestedInner) rfl

/-- C7: the mocha config schema validates `timeout` with the unconditional
union of the number and string schemas (fallback "Expected a number or a
string") and `ui` with the unconditional union of exactly the four literals
"bdd", "tdd", "qunit" and "exports"; accordingly the timeout union accepts
every number and every string and rejects everything else with the fallback
message, and the ui union accepts exactly the four literal strings. -/
theorem mochaConfig_timeout_ui :
    alGet mochaConfigFields "timeout" =
      some (optionalS (unionType [numberS, stringS]
        "Expected a number or a string")) ∧
    alGet mochaConfigFields "ui" =
      some (optionalS (unionType
        [literalS "bdd", literalS "tdd", literalS "qunit", literalS "exports"]
        "Expected \"bdd\", \"tdd\", \"qunit\" or \"exports\"")) ∧
    (∀ n : Int, unionType [numberS, stringS] "Expected a number or a string"
      (.vNum n) = .ok (.vNum n)) ∧
    (∀ s : String, unionType [numberS, stringS] "Expected a number or a string"
      (.vStr s) = .ok (.vStr s)) ∧
    (∀ v : Value, (∀ n, v ≠ .vNum n) → (∀ s, v ≠ .vStr s) →
      unionType [numberS, stringS] "Expected a number or a string" v =
        .error [⟨"Expected a number or a string", []⟩]) ∧
    (∀ v : Value, (∃ d, unionType
        [literalS "bdd", literalS "tdd", literalS "qunit", literalS "exports"]
        "Expected \"bdd\", \"tdd\", \"qunit\" or \"exports\"" v = .ok d) ↔
      (v = .vStr "bdd" ∨ v = .vStr "tdd" ∨ v = .vStr "qunit" ∨
        v = .vStr "exports")) := by
  refine ⟨rfl, rfl, fun n => rfl, fun s => rfl, ?_, ?_⟩
  · intro v hn hs
    cases v with
    | vNum n => exact absurd rfl (hn n)
    | vStr s => exact absurd rfl (hs s)
    | vUndefined => rfl
    | vNull => rfl
    | vBool b => rfl
    | vArr xs => rfl
    | vObj fs => rfl
    | vFun => rfl
  · intro v
    constructor
    · rintro ⟨d, hd⟩
      cases v with
      | vStr t =>
        by_cases h1 : t = "bdd"
        · exact Or.inl (by rw [h1])
        by_cases h2 : t = "tdd"
        · exact Or.inr (Or.inl (by rw [h2]))
        by_cases h3 : t = "qunit"
        · exact Or.inr (Or.inr (Or.inl (by rw [h3])))
        by_cases h4 : t = "exports"
        · exact Or.inr (Or.inr (Or.inr (by rw [h4])))
        exfalso
        simp only [unionType, firstOk, literalS, if_neg h1, if_neg h2, if_neg h3,
          if_neg h4] at hd
        cases hd
      | vUndefined => cases hd
      | vNull => cases hd
      | vBool b => cases hd
      | vNum n => cases hd
      | vArr xs => cases hd
      | vObj fs => cases hd
      | vFun => cases hd
    · rintro (rfl | rfl | rfl | rfl)
      · exact ⟨_, rfl⟩
      · exact ⟨_, rfl⟩
      · exact ⟨_, rfl⟩
      · exact ⟨_, rfl⟩

/-- Witness for C7: `true` is neither a number nor a string, so the timeout
union rejects it with the fallback message. -/
theorem mochaConfig_timeout_ui_witness :
    unionType [numberS, stringS] "Expected a number or a string"
      (.vBool true) = .error [⟨"Expected a number or a string", []⟩] :=
  mochaConfig_timeout_ui.2.2.2.2.1 (.vBool true)
    (fun n h => by cases h) (fun s h => by cases h)

/-- C8: the keystore `fetchValue` hook short-circuits to `next` in CI without
touching the keystore loader; outside CI it also delegates to `next` when the
keystore is uninitialized or lacks the key, and returns the keystore value
exactly when the key exists. -/
theorem fetchValue_spec (env : KeystoreEnv) (loaderCached : Bool)
    (name : String) :
    (env.ci = true → fetchValue env loaderCached name = (.next, loaderCached)) ∧
    (env.ci = false → env.keystoreInitialized = false →
      fetchValue env loaderCached name = (.next, true)) ∧
    (env.ci = false → env.keystoreInitialized = true →
      alGet env.keys name = none →
      fetchValue env loaderCached name = (.next, true)) ∧
    (∀ v, env.ci = false → env.keystoreInitialized = true →
      alGet env.keys name = some v →
      fetchValue env loaderCached name = (.value v, true)) := by
  refine ⟨?_, ?_, ?_, ?_⟩ <;> intros <;> simp_all [fetchValue]

/-- Witness for C8: outside CI, with an initialized keystore holding the key,
the hook returns the stored value. -/
theorem fetchValue_spec_witness :
    fetchValue ⟨false, true, [("API_KEY", "secret")]⟩ false "API_KEY" =
      (.value "secret", true) :=
  (fetchValue_spec ⟨false, true, [("API_KEY", "secret")]⟩ false "API_KEY").2.2.2
    "secret" rfl rfl rfl

/-! ## Association-list lemmas -/

theorem overrideWith_fst (b : List (String × Value)) (p : String × Value) :
    (overrideWith b p).1 = p.1 := by
  unfold overrideWith
  cases alGet b p.1 <;> rfl

theorem find?_filter_of_imp {α : Type} {p q : α → Bool} (l : List α)
    (h : ∀ x, p x = true → q x = true) :
    List.find? p (l.filter q) = List.find? p l := by
  induction l with
  | nil => rfl
  | cons a l ih =>
    by_cases hq : q a = true
    · rw [List.filter_cons_of_pos hq]
      by_cases hp : p a = true
      · rw [List.find?_cons_of_pos _ hp, List.find?_cons_of_pos _ hp]
      · rw [List.find?_cons_of_neg _ hp, List.find?_cons_of_neg _ hp, ih]
    · have hp : ¬ p a = true := fun hpa => hq (h a hpa)
      rw [List.filter_cons_of_neg hq, List.find?_cons_of_neg _ hp, ih]

theorem alGet_jsSpread (a b : List (String × Value)) (k : String) :
    alGet (jsSpread a b) k = (alGet b k).or (alGet a k) := by
  have hcomp : ((fun p : String × Value => decide (p.1 = k)) ∘ overrideWith b) =
      (fun p : String × Value => decide (p.1 = k)) := by
    funext p
    simp [overrideWith_fst]
  cases ha : List.find? (fun p : String × Value => decide (p.1 = k)) a with
  | some p0 =>
    have hk : p0.1 = k := by simpa using List.find?_some ha
    have h1 : List.find? (fun p : String × Value => decide (p.1 = k))
        (a.map (overrideWith b)) = some (overrideWith b p0) := by
      rw [List.find?_map, hcomp, ha]
      rfl
    have h2 : alGet (jsSpread a b) k = some ((overrideWith b p0).2) := by
      unfold alGet jsSpread
      rw [List.find?_append, h1]
      rfl
    have ha' : alGet a k = some p0.2 := by
      unfold alGet
      rw [ha]
      rfl
    rw [h2, ha']
    cases hb : alGet b k with
    | some w =>
      have : overrideWith b p0 = (p0.1, w) := by
        unfold overrideWith
        rw [hk, hb]
      rw [this]
      rfl
    | none =>
      have : overrideWith b p0 = p0 := by
        unfold overrideWith
        rw [hk, hb]
      rw [this]
      rfl
  | none =>
    have hnone := List.find?_eq_none.mp ha
    have h1 : List.find? (fun p : String × Value => decide (p.1 = k))
        (a.map (overrideWith b)) = none := by
      rw [List.find?_map, hcomp, ha]
      rfl
    have ha' : alGet a k = none := by
      unfold alGet
      rw [ha]
      rfl
    have h3 : List.find? (fun p : String × Value => decide (p.1 = k))
        (b.filter (fun q => !(a.any (fun p => decide (p.1 = q.1))))) =
        List.find? (fun p : String × Value => decide (p.1 = k)) b := by
      apply find?_filter_of_imp
      intro x hx
      have hxk : x.1 = k := by simpa using hx
      have hfalse : a.any (fun p => decide (p.1 = x.1)) = false := by
        rw [List.any_eq_false]
        intro p hp
        rw [hxk]
        exact hnone p hp
      rw [hfalse]
      rfl
    have h2 : alGet (jsSpread a b) k =
        (List.find? (fun p : String × Value => decide (p.1 = k)) b).map
          (fun p => p.2) := by
      unfold alGet jsSpread
      rw [List.find?_append, h1, h3]
      rfl
    rw [h2, ha']
    show alGet b k = (alGet b k).or none
    cases hb : alGet b k <;> rfl

theorem alGet_alSet_self {α : Type} (m : List (String × α)) (k : String)
    (v : α) : alGet (alSet m k v) k = some v := by
  unfold alSet
  by_cases h : m.any (fun p => decide (p.1 = k)) = true
  · rw [if_pos h]
    obtain ⟨x, hx, hpx⟩ := List.any_eq_true.mp h
    unfold alGet
    rw [List.find?_map]
    have hcomp : ((fun p : String × α => decide (p.1 = k)) ∘
        (fun p : String × α => if p.1 = k then (k, v) else p)) =
        (fun p : String × α => decide (p.1 = k)) := by
      funext p
      by_cases hp : p.1 = k <;> simp [hp]
    rw [hcomp]
    cases hf : List.find? (fun p : String × α => decide (p.1 = k)) m with
    | none => exact absurd hpx (List.find?_eq_none.mp hf x hx)
    | some p0 =>
      have hk : p0.1 = k := by simpa using List.find?_some hf
      simp [hk]
  · rw [if_neg h]
    have hall : ∀ p ∈ m, (fun p : String × α => decide (p.1 = k)) p = false := by
      intro p hp
      have hfalse : m.any (fun p : String × α => decide (p.1 = k)) = false := by
        cases hb : m.any (fun p : String × α => decide (p.1 = k)) with
        | true => exact absurd hb h
        | false => rfl
      simpa using List.any_eq_false.mp hfalse p hp
    unfold alGet
    rw [find?_append_of_none m _ hall, List.find?_cons_of_pos _ (by simp)]
    rfl

theorem alGet_alSet_ne {α : Type} (m : List (String × α)) (k k' : String)
    (v : α) (h : k' ≠ k) : alGet (alSet m k v) k' = alGet m k' := by
  unfold alSet
  by_cases hm : m.any (fun p => decide (p.1 = k)) = true
  · rw [if_pos hm]
    unfold alGet
    rw [List.find?_map]
    have hcomp : ((fun p : String × α => decide (p.1 = k')) ∘
        (fun p : String × α => if p.1 = k then (k, v) else p)) =
        (fun p : String × α => decide (p.1 = k')) := by
      funext p
      by_cases hp : p.1 = k
      · simp [hp, Ne.symm h]
      · simp [hp]
    rw [hcomp]
    cases hf : List.find? (fun p : String × α => decide (p.1 = k')) m with
    | none => rfl
    | some p0 =>
      have hk : p0.1 = k' := by simpa using List.find?_some hf
      have hne : ¬ p0.1 = k := by
        rw [hk]
        exact h
      simp [hne]
  · rw [if_neg hm]
    unfold alGet
    rw [List.find?_append]
    have hlast : List.find? (fun p : String × α => decide (p.1 = k')) [(k, v)] =
        none := by
      simp [Ne.symm h]
    rw [hlast]
    cases hf : List.find? (fun p : String × α => decide (p.1 = k')) m <;> rfl

theorem getObjField_of_eq (m : List (String × Value)) (k : String)
    (entries : List (String × Value)) (h : alGet m k = some (.vObj entries)) :
    getObjField m k = entries := by
  unfold getObjField
  rw [h]

/-- C10: the mocha `resolveUserConfig` hook keeps every field other than
`mocha` exactly as produced by `next`, and sets `mocha` to `{timeout: 40000}`
overridden first by the next-resolved mocha config and then by the user's
mocha config, so a user-supplied timeout always wins and the 40000 default
applies only when neither supplies one. -/
theorem resolveUserConfig_spec (u n : List (String × Value)) :
    (∀ k, k ≠ "mocha" → alGet (resolveUserConfig u n) k = alGet n k) ∧
    alGet (resolveUserConfig u n) "mocha" =
      some (.vObj (jsSpread (jsSpread mochaDefaults (getObjField n "mocha"))
        (getObjField u "mocha"))) ∧
    (∀ k, alGet (getObjField (resolveUserConfig u n) "mocha") k =
      ((alGet (getObjField u "mocha") k).or
        ((alGet (getObjField n "mocha") k).or (alGet mochaDefaults k)))) ∧
    (∀ t, alGet (getObjField u "mocha") "timeout" = some t →
      alGet (getObjField (resolveUserConfig u n) "mocha") "timeout" = some t) ∧
    (alGet (getObjField u "mocha") "timeout" = none →
      alGet (getObjField n "mocha") "timeout" = none →
      alGet (getObjField (resolveUserConfig u n) "mocha") "timeout" =
        some (.vNum 40000)) := by
  have h2 : alGet (resolveUserConfig u n) "mocha" =
      some (.vObj (jsSpread (jsSpread mochaDefaults (getObjField n "mocha"))
        (getObjField u "mocha"))) := by
    unfold resolveUserConfig
    exact alGet_alSet_self n "mocha" _
  have h3 : ∀ k, alGet (getObjField (resolveUserConfig u n) "mocha") k =
      ((alGet (getObjField u "mocha") k).or
        ((alGet (getObjField n "mocha") k).or (alGet mochaDefaults k))) := by
    intro k
    rw [getObjField_of_eq _ "mocha" _ h2, alGet_jsSpread, alGet_jsSpread]
  refine ⟨?_, h2, h3, ?_, ?_⟩
  · intro k hk
    unfold resolveUserConfig
    exact alGet_alSet_ne n "mocha" k _ hk
  · intro t ht
    rw [h3 "timeout", ht]
    rfl
  · intro h1 hn
    rw [h3 "timeout", h1, hn]
    rfl

/-- Witness for C10: with a user timeout of 1 and a next-resolved timeout of
2, the resolved mocha timeout is the user's 1. -/
theorem resolveUserConfig_spec_witness :
    alGet (getObjField (resolveUserConfig
      [("mocha", .vObj [("timeout", .vNum 1)])]
      [("mocha", .vObj [("timeout", .vNum 2), ("bail", .vBool true)]),
       ("paths", .vStr "p")]) "mocha") "timeout" = some (.vNum 1) :=
  (resolveUserConfig_spec
    [("mocha", .vObj [("timeout", .vNum 1)])]
    [("mocha", .vObj [("timeout", .vNum 2), ("bail", .vBool true)]),
     ("paths", .vStr "p")]).2.2.2.1 (.vNum 1) rfl

/-! ## Lemmas about the outputSelection defaulting loop -/

/-- The settings object `resolveCompiler` starts from: `compiler.settings ?? {}`. -/
def userSettings (c : SolcUserConfig) : SolcUserSettings := c.settings.getD {}

/-- The user's output selection, `settings.outputSelection` defaulted to `{}`. -/
def userSelection (c : SolcUserConfig) : OutputSelection :=
  (userSettings c).outputSelection.getD []

theorem addOutputs_cons (cur : List String) (o : String) (outs : List String) :
    addOutputs cur (o :: outs) =
      addOutputs (if o ∈ cur then cur else cur ++ [o]) outs := rfl

theorem mem_addOutputs_left (cur outs : List String) (o : String)
    (h : o ∈ cur) : o ∈ addOutputs cur outs := by
  induction outs generalizing cur with
  | nil => exact h
  | cons o' outs ih =>
    rw [addOutputs_cons]
    apply ih
    by_cases h' : o' ∈ cur
    · rw [if_pos h']
      exact h
    · rw [if_neg h']
      exact List.mem_append_left _ h

theorem mem_addOutputs_right (cur outs : List String) (o : String)
    (h : o ∈ outs) : o ∈ addOutputs cur outs := by
  induction outs generalizing cur with
  | nil => cases h
  | cons o' outs ih =>
    rw [addOutputs_cons]
    rcases List.mem_cons.mp h with rfl | hmem
    · apply mem_addOutputs_left
      by_cases h' : o ∈ cur
      · rw [if_pos h']
        exact h'
      · rw [if_neg h']
        exact List.mem_append_right _ (List.mem_singleton.mpr rfl)
    · exact ih _ hmem

theorem addOutputs_eq (outs cur : List String) (h : outs.Nodup) :
    addOutputs cur outs = cur ++ outs.filter (fun o => !decide (o ∈ cur)) := by
  induction outs generalizing cur with
  | nil => simp [addOutputs]
  | cons o outs ih =>
    have hno : o ∉ outs := (List.nodup_cons.mp h).1
    have hnd : outs.Nodup := (List.nodup_cons.mp h).2
    rw [addOutputs_cons]
    by_cases hmem : o ∈ cur
    · rw [if_pos hmem, ih cur hnd,
        List.filter_cons_of_neg (by simp [hmem])]
    · rw [if_neg hmem, ih (cur ++ [o]) hnd,
        List.filter_cons_of_pos (by simp [hmem])]
      have hfc : List.filter (fun o' => !decide (o' ∈ cur ++ [o])) outs =
          List.filter (fun o' => !decide (o' ∈ cur)) outs := by
        apply List.filter_congr
        intro x hx
        have hxo : x ≠ o := fun hxo => hno (hxo ▸ hx)
        simp [List.mem_append, hxo]
      rw [hfc, List.append_assoc]
      rfl

theorem addOutputs_nodup (cur outs : List String) (hc : cur.Nodup)
    (ho : outs.Nodup) : (addOutputs cur outs).Nodup := by
  rw [addOutputs_eq outs cur ho, List.nodup_append]
  refine ⟨hc, ho.filter _, ?_⟩
  rw [List.disjoint_left]
  intro a ha hb
  have hp := (List.mem_filter.mp hb).2
  simp only [Bool.not_eq_true', decide_eq_false_iff_not] at hp
  exact hp ha

theorem applyDefaultOutputs_spec (sel : OutputSelection) :
    ((alGet ((alGet (applyDefaultOutputs sel) "*").getD []) "*").getD [] =
      addOutputs ((alGet ((alGet sel "*").getD []) "*").getD [])
        ["abi", "evm.bytecode", "evm.deployedBytecode", "evm.methodIdentifiers",
         "metadata"]) ∧
    ((alGet ((alGet (applyDefaultOutputs sel) "*").getD []) "").getD [] =
      addOutputs ((alGet ((alGet sel "*").getD []) "").getD []) ["ast"]) ∧
    (∀ ct, ct ≠ "*" → ct ≠ "" →
      alGet ((alGet (applyDefaultOutputs sel) "*").getD []) ct =
        alGet ((alGet sel "*").getD []) ct) ∧
    (∀ f, f ≠ "*" → alGet (applyDefaultOutputs sel) f = alGet sel f) := by
  have hne1 : ("" : String) ≠ "*" := by decide
  have hne2 : ("*" : String) ≠ "" := by decide
  set fm : List (String × List String) := (alGet sel "*").getD [] with hfm
  set out1 : List String := addOutputs ((alGet fm "*").getD [])
    ["abi", "evm.bytecode", "evm.deployedBytecode", "evm.methodIdentifiers",
     "metadata"] with hout1
  set fm1 : List (String × List String) := alSet fm "*" out1 with hfm1
  set out2 : List String := addOutputs ((alGet fm1 "").getD []) ["ast"] with hout2
  set fm2 : List (String × List String) := alSet fm1 "" out2 with hfm2
  have hunf : applyDefaultOutputs sel = alSet sel "*" fm2 := rfl
  have htop : alGet (applyDefaultOutputs sel) "*" = some fm2 := by
    rw [hunf]
    exact alGet_alSet_self sel "*" fm2
  have hfm2_star : alGet fm2 "*" = some out1 := by
    rw [hfm2, alGet_alSet_ne fm1 "" "*" out2 hne2, hfm1]
    exact alGet_alSet_self fm "*" out1
  have hfm2_empty : alGet fm2 "" = some out2 := by
    rw [hfm2]
    exact alGet_alSet_self fm1 "" out2
  have hcur2 : alGet fm1 "" = alGet fm "" := by
    rw [hfm1]
    exact alGet_alSet_ne fm "*" "" out1 hne1
  refine ⟨?_, ?_, ?_, ?_⟩
  · rw [htop]
    show (alGet fm2 "*").getD [] = _
    rw [hfm2_star]
    rfl
  · rw [htop]
    show (alGet fm2 "").getD [] = _
    rw [hfm2_empty]
    show out2 = _
    rw [hout2, hcur2]
  · intro ct h1 h2
    rw [htop]
    show alGet fm2 ct = _
    rw [hfm2, alGet_alSet_ne fm1 "" ct out2 h2, hfm1]
    exact alGet_alSet_ne fm "*" ct out1 h1
  · intro f hf
    rw [hunf]
    exact alGet_alSet_ne sel "*" f fm2 hf

/-- C9: `resolveCompiler` resolves the optimizer to `{enabled: false,
runs: 200}` overridden by the user's optimizer fields; sets
`settings.evmVersion` to the user's value or "paris" exactly when the version
is >= 0.8.20 and leaves it untouched otherwise; and merges every default
output into the "*" file/contract selections without duplicating an output
already present, preserving all user-supplied outputs everywhere. -/
theorem resolveCompiler_spec (c : SolcUserConfig) :
    (resolveCompiler c).settings.optimizer =
      { enabled := ((userSettings c).optimizer.getD {}).enabled.getD false,
        runs := ((userSettings c).optimizer.getD {}).runs.getD 200 } ∧
    (resolveCompiler c).settings.evmVersion =
      (if semverGte c.version "0.8.20" then
        some ((userSettings c).evmVersion.getD "paris")
      else (userSettings c).evmVersion) ∧
    (∀ o ∈ ["abi", "evm.bytecode", "evm.deployedBytecode",
        "evm.methodIdentifiers", "metadata"],
      o ∈ (alGet ((alGet (resolveCompiler c).settings.outputSelection
        "*").getD []) "*").getD []) ∧
    "ast" ∈ (alGet ((alGet (resolveCompiler c).settings.outputSelection
      "*").getD []) "").getD [] ∧
    ((alGet ((alGet (resolveCompiler c).settings.outputSelection "*").getD [])
        "*").getD [] =
      ((alGet ((alGet (userSelection c) "*").getD []) "*").getD []) ++
        (["abi", "evm.bytecode", "evm.deployedBytecode", "evm.methodIdentifiers",
          "metadata"].filter (fun o =>
          !decide (o ∈ (alGet ((alGet (userSelection c) "*").getD [])
            "*").getD [])))) ∧
    ((alGet ((alGet (resolveCompiler c).settings.outputSelection "*").getD [])
        "").getD [] =
      ((alGet ((alGet (userSelection c) "*").getD []) "").getD []) ++
        (["ast"].filter (fun o =>
          !decide (o ∈ (alGet ((alGet (userSelection c) "*").getD [])
            "").getD [])))) ∧
    (∀ file contract o,
      o ∈ (alGet ((alGet (userSelection c) file).getD []) contract).getD [] →
      o ∈ (alGet ((alGet (resolveCompiler c).settings.outputSelection
        file).getD []) contract).getD []) ∧
    (∀ contract,
      ((alGet ((alGet (userSelection c) "*").getD []) contract).getD []).Nodup →
      ((alGet ((alGet (resolveCompiler c).settings.outputSelection
        "*").getD []) contract).getD []).Nodup) ∧
    (∀ file, file ≠ "*" →
      alGet (resolveCompiler c).settings.outputSelection file =
        alGet (userSelection c) file) := by
  obtain ⟨hA, hB, hC, hD⟩ := applyDefaultOutputs_spec (userSelection c)
  have hres : (resolveCompiler c).settings.outputSelection =
      applyDefaultOutputs (userSelection c) := rfl
  refine ⟨rfl, rfl, ?_, ?_, ?_, ?_, ?_, ?_, ?_⟩
  · intro o ho
    rw [hres, hA]
    exact mem_addOutputs_right _ _ o ho
  · rw [hres, hB]
    exact mem_addOutputs_right _ _ "ast" (List.mem_singleton.mpr rfl)
  · rw [hres, hA]
    exact addOutputs_eq _ _ (by decide)
  · rw [hres, hB]
    exact addOutputs_eq _ _ (by decide)
  · intro file contract o ho
    by_cases hf : file = "*"
    · subst hf
      by_cases hc1 : contract = "*"
      · subst hc1
        rw [hres, hA]
        exact mem_addOutputs_left _ _ o ho
      · by_cases hc2 : contract = ""
        · subst hc2
          rw [hres, hB]
          exact mem_addOutputs_left _ _ o ho
        · rw [hres, hC contract hc1 hc2]
          exact ho
    · rw [hres, hD file hf]
      exact ho
  · intro contract hnd
    by_cases hc1 : contract = "*"
    · subst hc1
      rw [hres, hA]
      exact addOutputs_nodup _ _ hnd (by decide)
    · by_cases hc2 : contract = ""
      · subst hc2
        rw [hres, hB]
        exact addOutputs_nodup _ _ hnd (by decide)
      · rw [hres, hC contract hc1 hc2]
        exact hnd
  · intro file hf
    rw [hres]
    exact hD file hf

/-- Witness for C9: a user-requested output ("metadata") for the "*"/"*"
selection is preserved by the resolution of a 0.8.20 compiler config. -/
theorem resolveCompiler_spec_witness :
    "metadata" ∈ (alGet ((alGet (resolveCompiler
      ⟨"0.8.20", some ⟨none, some ⟨none, some 1⟩,
        some [("*", [("*", ["metadata"])])]⟩⟩).settings.outputSelection
      "*").getD []) "*").getD [] :=
  (resolveCompiler_spec
    ⟨"0.8.20", some ⟨none, some ⟨none, some 1⟩,
      some [("*", [("*", ["metadata"])])]⟩⟩).2.2.2.2.2.2.1
    "*" "*" "metadata" (by decide)

end HardhatSpec
